import Mathlib

/-
Verification of the section-selector parser and the document transformer of
`src/Scripts/phase1.py` (functions `parse_section_spec` and
`build_output_structure`).

Modelling conventions:
* Python strings are represented by their character lists (`List Char`);
  the helpers `pyStrip`, `pySplit`, `pySplitFirst` and `pyInt?` mirror the
  Python primitives `str.strip`, `str.split(sep)`, `str.split(sep, 1)` and
  `int(str)` used by the source.
* JSON values are the inductive `JValue`.  Floating point numbers are not
  modelled (no behaviour under verification involves them).  Python dicts
  are insertion-ordered association lists with unique keys; assignment
  `d[k] = v` is `dictSet`, which updates an existing key in place and
  otherwise appends, exactly as Python dicts behave.
* Python exceptions become `Except`: `ParseError` models the `ValueError`s
  raised by `parse_section_spec`, `TransformError` models the `TypeError`s
  that can escape `build_output_structure` (the explicit shape check, and
  the `TypeError` Python raises when `x in someSet` hashes an unhashable
  value such as a list or a dict).
-/

/-- Python `str.strip()`: drop whitespace from both ends. -/
def pyStrip (cs : List Char) : List Char :=
  ((cs.dropWhile Char.isWhitespace).reverse.dropWhile Char.isWhitespace).reverse

/-- Python `str.split(sep)` for a one-character separator: split at every
occurrence of `sep`, keeping empty pieces (so the result is always
nonempty, and `"".split(sep) == [""]`). -/
def pySplit (sep : Char) : List Char → List (List Char)
  | [] => [[]]
  | c :: rest =>
    if c = sep then [] :: pySplit sep rest
    else
      match pySplit sep rest with
      | t :: ts => (c :: t) :: ts
      | [] => [[c]]

/-- Python `str.split(sep, 1)` for a one-character separator: split at the
first occurrence of `sep` only.  When `sep` does not occur the second
component is empty (the source only uses this after checking that `sep`
occurs, so that case is immaterial). -/
def pySplitFirst (sep : Char) : List Char → List Char × List Char
  | [] => ([], [])
  | c :: rest =>
    if c = sep then ([], rest)
    else
      let p := pySplitFirst sep rest
      (c :: p.1, p.2)

/-- Digit-string value, most significant digit first. -/
def digitsVal (ds : List Char) : Nat :=
  ds.foldl (fun a c => a * 10 + (c.toNat - 48)) 0

/-- Python `int(str)`: surrounding whitespace is ignored, then an optional
single sign followed by a nonempty run of digits.  (Python additionally
accepts underscore digit grouping and non-ASCII digits; no behaviour under
verification depends on those.)  Returns `none` where Python raises
`ValueError`. -/
def pyInt? (cs0 : List Char) : Option Int :=
  let cs := pyStrip cs0
  match cs with
  | [] => none
  | c :: rest =>
    let p : Bool × List Char :=
      if c = '-' then (true, rest)
      else if c = '+' then (false, rest)
      else (false, cs)
    if p.2.isEmpty then none
    else if p.2.all Char.isDigit then
      some (if p.1 then -(digitsVal p.2 : Int) else (digitsVal p.2 : Int))
    else none

/-- The `ValueError`s raised by `parse_section_spec`, carrying the
offending (already stripped) token. -/
inductive ParseError : Type where
  | invalidRange (token : String)
  | invalidValue (token : String)
deriving DecidableEq

/-- Python `repr` of a string token (the tokens at issue never contain
quote or escape characters). -/
def pyReprStr (s : String) : String :=
  "\x27" ++ s ++ "\x27"

/-- The message attached to each `ParseError`, exactly as formatted by the
source (`f"Invalid section range: {chunk!r}"` and
`f"Invalid section value: {chunk!r}"`). -/
def ParseError.message : ParseError → String
  | .invalidRange t => "Invalid section range: " ++ pyReprStr t
  | .invalidValue t => "Invalid section value: " ++ pyReprStr t

/-- One iteration of the loop body of `parse_section_spec`: strip the
chunk, skip it when empty, treat it as a range when it contains a dash
(splitting at the first dash, swapping a reversed pair, and adding the
inclusive range), and otherwise as a single integer. -/
def addChunk (acc : Finset Int) (chunk0 : List Char) : Except ParseError (Finset Int) :=
  let chunk := pyStrip chunk0
  if chunk.isEmpty then .ok acc
  else if chunk.contains '-' then
    match pyInt? (pySplitFirst '-' chunk).1, pyInt? (pySplitFirst '-' chunk).2 with
    | some a, some b =>
      .ok (acc ∪ Finset.Icc (if a > b then b else a) (if a > b then a else b))
    | _, _ => .error (.invalidRange (String.mk chunk))
  else
    match pyInt? chunk with
    | some n => .ok (insert n acc)
    | none => .error (.invalidValue (String.mk chunk))

instance {ε α : Type} [DecidableEq ε] [DecidableEq α] : DecidableEq (Except ε α) :=
  fun a b =>
    match a, b with
    | .ok x, .ok y =>
      if h : x = y then .isTrue (by rw [h])
      else .isFalse (fun hh => h (by cases hh; rfl))
    | .error x, .error y =>
      if h : x = y then .isTrue (by rw [h])
      else .isFalse (fun hh => h (by cases hh; rfl))
    | .ok _, .error _ => .isFalse (fun hh => by cases hh)
    | .error _, .ok _ => .isFalse (fun hh => by cases hh)

/-- `parse_section_spec` from `src/Scripts/phase1.py`: split the spec on
commas and fold the loop body over the chunks, starting from the empty
set. -/
def parse_section_spec (spec : String) : Except ParseError (Finset Int) :=
  (pySplit ',' spec.toList).foldlM addChunk ∅

/-- Which `ParseError` the loop body raises for an invalid stripped token:
`invalidRange` when the token contains a dash, `invalidValue` otherwise. -/
def tokenError (t : List Char) : ParseError :=
  if t.contains '-' then .invalidRange (String.mk t) else .invalidValue (String.mk t)

/-- Validity of a stripped token, following the words of the spec: empty
tokens are skipped, a dash-containing token must have both sides of its
first dash parse as integers, and a dash-free token must itself parse as
an integer. -/
def specTokenValid (t : List Char) : Bool :=
  t.isEmpty ||
    (if t.contains '-' then
      ((pyInt? (pySplitFirst '-' t).1).isSome && (pyInt? (pySplitFirst '-' t).2).isSome)
    else (pyInt? t).isSome)

/-- The set denoted by a valid stripped token, following the words of the
spec: an empty token denotes nothing, a dash pair denotes the inclusive
range from the smaller to the larger bound, and a single integer denotes
its singleton. -/
def specTokenSet (t : List Char) : Finset Int :=
  if t.isEmpty then ∅
  else if t.contains '-' then
    match pyInt? (pySplitFirst '-' t).1, pyInt? (pySplitFirst '-' t).2 with
    | some a, some b => Finset.Icc (min a b) (max a b)
    | _, _ => (∅ : Finset Int)
  else
    match pyInt? t with
    | some n => {n}
    | none => ∅

/-- JSON values as produced by Python `json.loads`.  Objects are
insertion-ordered association lists (Python dicts preserve insertion
order); floating point numbers are not modelled, as no behaviour under
verification involves them. -/
inductive JValue : Type where
  | null : JValue
  | bool : Bool → JValue
  | int : Int → JValue
  | str : String → JValue
  | arr : List JValue → JValue
  | obj : List (String × JValue) → JValue

/-- A JSON document: a Python dict from string keys to values. -/
abbrev Doc := List (String × JValue)

/-- Python dict assignment `d[k] = v`: if `k` is already present its value
is updated in place (the key keeps its position), otherwise the pair is
appended at the end. -/
def dictSet (d : Doc) (k : String) (v : JValue) : Doc :=
  if d.any (fun p => p.1 == k) then
    d.map (fun p => if p.1 == k then (k, v) else p)
  else d ++ [(k, v)]

/-- Python `d.get(k, dflt)` on a dict represented as an association
list. -/
def dictGetD (d : Doc) (k : String) (dflt : JValue) : JValue :=
  (d.lookup k).getD dflt

/-- Python `isinstance(x, list)` for a JSON value. -/
def JValue.isList : JValue → Bool
  | .arr _ => true
  | _ => false

/-- The `TypeError`s that can escape `build_output_structure`: the
explicit shape check on the "sections" value, and the `TypeError` Python
raises when `x in section_filter` has to hash an unhashable `x` (a list
or a dict). -/
inductive TransformError : Type where
  | shape (msg : String)
  | unhashable (ty : String)
deriving DecidableEq

/-- Python `v in S` for a set of integers `S`: ints are compared directly;
`True`/`False` equal `1`/`0` in Python, so they test membership of `1`/`0`;
`None` and strings are hashable but never equal to an int; lists and
dicts are unhashable, so Python raises `TypeError` before any
comparison. -/
def pySetMem (v : JValue) (S : Finset Int) : Except TransformError Bool :=
  match v with
  | .int n => .ok (decide (n ∈ S))
  | .bool b => .ok (decide (((if b then 1 else 0) : Int) ∈ S))
  | .str _ => .ok false
  | .null => .ok false
  | .arr _ => .error (.unhashable "list")
  | .obj _ => .error (.unhashable "dict")

/-- The list comprehension of `build_output_structure`:
`[s for s in all_sections if isinstance(s, dict) and s.get("section") in section_filter]`.
The conjunction short-circuits, so the membership test (and hence its
possible `TypeError`) is only reached for dict entries; the first failing
entry aborts the comprehension. -/
def filterSections (S : Finset Int) : List JValue → Except TransformError (List JValue)
  | [] => .ok []
  | v :: rest =>
    let memTest : Except TransformError Bool :=
      match v with
      | JValue.obj kvs => pySetMem (dictGetD kvs "section" JValue.null) S
      | _ => .ok false
    match memTest with
    | .error e => .error e
    | .ok keep =>
      match filterSections S rest with
      | .error e => .error e
      | .ok tail => .ok (if keep then v :: tail else tail)

/-- The loop body of `build_output_structure` that copies every top-level
key except "sections" into the output dict. -/
def copyKeysStep (out : Doc) (kv : String × JValue) : Doc :=
  if kv.1 = "sections" then out else dictSet out kv.1 kv.2

/-- `build_output_structure` from `src/Scripts/phase1.py` (the
document transformer, called `transform` by the spec): start the output
with "seed" and "theme", copy every other top-level key except
"sections" in order, check that the "sections" value (defaulting to the
empty list when the key is absent) is a list, filter it when a selector
set was supplied, and store the result under "sections" last. -/
def build_output_structure (data : Doc) (seed : Int) (theme_text : String)
    (section_filter : Option (Finset Int)) : Except TransformError Doc :=
  let output : Doc :=
    (data.foldl copyKeysStep
      [("seed", JValue.int seed), ("theme", JValue.str theme_text)])
  match dictGetD data "sections" (JValue.arr []) with
  | JValue.arr xs =>
    match section_filter with
    | none => .ok (dictSet output "sections" (JValue.arr xs))
    | some S =>
      match filterSections S xs with
      | .ok filtered => .ok (dictSet output "sections" (JValue.arr filtered))
      | .error e => .error e
  | _ => .error (.shape "Input JSON \x27sections\x27 field must be a list.")

/-- Whether the membership test on one sections entry is guaranteed not to
raise: it can only raise for a dict entry whose "section" value (default
`None`) is an unhashable list or dict. -/
def entryMemOk (v : JValue) : Bool :=
  match v with
  | JValue.obj kvs =>
    match dictGetD kvs "section" JValue.null with
    | JValue.arr _ => false
    | JValue.obj _ => false
    | _ => true
  | _ => true

/-- The pure keep-condition of the comprehension for entries whose
membership test cannot raise: the entry is a dict and its "section" value
is an int in the set (or a bool whose Python int value is in the set). -/
def keepEntry (S : Finset Int) (v : JValue) : Bool :=
  match v with
  | JValue.obj kvs =>
    match dictGetD kvs "section" JValue.null with
    | JValue.int n => decide (n ∈ S)
    | JValue.bool b => decide (((if b then 1 else 0) : Int) ∈ S)
    | _ => false
  | _ => false

/-- Re-forming a valid input from an output document, as the spec words
the idempotence property: remove the added "seed" and "theme" keys. -/
def removeSeedTheme (d : Doc) : Doc :=
  d.filter (fun kv => kv.1 != "seed" && kv.1 != "theme")

theorem bindOk {ε α β : Type} (x : α) (f : α → Except ε β) :
    (Except.ok x >>= f : Except ε β) = f x := rfl

theorem bindError {ε α β : Type} (e : ε) (f : α → Except ε β) :
    (Except.error e >>= f : Except ε β) = Except.error e := rfl

theorem addChunk_valid (acc : Finset Int) (c : List Char)
    (h : specTokenValid (pyStrip c) = true) :
    addChunk acc c = .ok (acc ∪ specTokenSet (pyStrip c)) := by
  unfold specTokenValid at h
  unfold addChunk specTokenSet
  by_cases he : (pyStrip c).isEmpty = true
  · simp [he]
  · have he' : (pyStrip c).isEmpty = false := by simpa using he
    rw [he', Bool.false_or] at h
    by_cases hd : (pyStrip c).contains '-' = true
    · rw [if_pos hd, Bool.and_eq_true] at h
      obtain ⟨ha, hb⟩ := h
      obtain ⟨a, ha⟩ := Option.isSome_iff_exists.mp ha
      obtain ⟨b, hb⟩ := Option.isSome_iff_exists.mp hb
      have h1 : (if a > b then b else a) = min a b := by split <;> omega
      have h2 : (if a > b then a else b) = max a b := by split <;> omega
      have hmem : '-' ∈ pyStrip c := by simpa using hd
      simp [he', hmem, ha, hb, h1, h2]
    · have hnm : ¬ '-' ∈ pyStrip c := by simpa using hd
      rw [if_neg hd] at h
      obtain ⟨n, hn⟩ := Option.isSome_iff_exists.mp h
      have hins : acc ∪ ({n} : Finset Int) = insert n acc := by
        rw [Finset.union_comm, ← Finset.insert_eq]
      simp [he', hnm, hn, hins]

theorem addChunk_invalid (acc : Finset Int) (c : List Char)
    (h : specTokenValid (pyStrip c) = false) :
    addChunk acc c = .error (tokenError (pyStrip c)) ∧ pyStrip c ≠ [] := by
  unfold specTokenValid at h
  unfold addChunk tokenError
  rw [Bool.or_eq_false_iff] at h
  obtain ⟨he, h2⟩ := h
  have hne : pyStrip c ≠ [] := by
    intro hh
    rw [hh] at he
    simp at he
  refine ⟨?_, hne⟩
  simp only [he, if_false, Bool.ite_eq_false_distrib] at h2 ⊢
  by_cases hd : (pyStrip c).contains '-'
  · simp only [hd, if_true] at h2 ⊢
    rw [Bool.and_eq_false_iff] at h2
    cases o1 : pyInt? (pySplitFirst '-' (pyStrip c)).1 <;>
      cases o2 : pyInt? (pySplitFirst '-' (pyStrip c)).2 <;>
        simp_all
  · simp only [hd, if_false] at h2 ⊢
    cases o : pyInt? (pyStrip c) <;> simp_all

theorem foldlM_addChunk_ok (l : List (List Char)) :
    ∀ acc : Finset Int, (∀ c ∈ l, specTokenValid (pyStrip c) = true) →
      l.foldlM addChunk acc =
        .ok (l.foldl (fun a c => a ∪ specTokenSet (pyStrip c)) acc) := by
  induction l with
  | nil => intro acc _; rfl
  | cons c t ih =>
    intro acc h
    rw [List.foldlM_cons, addChunk_valid acc c (h c (by simp)), bindOk, List.foldl_cons]
    exact ih _ (fun d hd => h d (by simp [hd]))

theorem foldlM_addChunk_error (l : List (List Char)) :
    ∀ (acc : Finset Int) (e : ParseError), l.foldlM addChunk acc = .error e →
      ∃ c ∈ l, specTokenValid (pyStrip c) = false ∧ pyStrip c ≠ [] ∧
        e = tokenError (pyStrip c) := by
  induction l with
  | nil => intro acc e h; cases h
  | cons c t ih =>
    intro acc e h
    by_cases hv : specTokenValid (pyStrip c) = true
    · rw [List.foldlM_cons, addChunk_valid acc c hv, bindOk] at h
      obtain ⟨d, hd, hrest⟩ := ih _ _ h
      exact ⟨d, by simp [hd], hrest⟩
    · rw [Bool.not_eq_true] at hv
      obtain ⟨herr, hne⟩ := addChunk_invalid acc c hv
      rw [List.foldlM_cons, herr, bindError] at h
      cases h
      exact ⟨c, by simp, hv, hne, rfl⟩

theorem stringMkToList (s : String) : String.mk s.toList = s := rfl

theorem foldlM_addChunk_error_exists (l : List (List Char)) :
    ∀ acc : Finset Int, (∃ c ∈ l, specTokenValid (pyStrip c) = false) →
      ∃ e, l.foldlM addChunk acc = .error e := by
  induction l with
  | nil => intro acc h; simp at h
  | cons c t ih =>
    intro acc h
    by_cases hv : specTokenValid (pyStrip c) = true
    · rw [List.foldlM_cons, addChunk_valid acc c hv, bindOk]
      apply ih
      obtain ⟨d, hd, hdv⟩ := h
      rcases List.mem_cons.mp hd with h1 | h2
      · rw [h1] at hdv; rw [hv] at hdv; cases hdv
      · exact ⟨d, h2, hdv⟩
    · rw [Bool.not_eq_true] at hv
      obtain ⟨herr, _⟩ := addChunk_invalid acc c hv
      rw [List.foldlM_cons, herr, bindError]
      exact ⟨_, rfl⟩


/-- C2: for every selector spec string all of whose non-empty trimmed
comma-separated tokens are valid (a single integer, or a dash-separated
pair of integers), `parse_section_spec` returns the union over the tokens
of their denoted sets: a single integer denotes its singleton, a dash
pair denotes the inclusive range from the smaller to the larger bound
(reversed pairs are swapped before expansion), empty tokens are skipped,
and a spec that is empty or contains only separators yields the empty
set rather than an error. -/
theorem parse_valid_spec_union (spec : String)
    (h : ∀ c ∈ pySplit ',' spec.toList, specTokenValid (pyStrip c) = true) :
    parse_section_spec spec =
      .ok ((pySplit ',' spec.toList).foldl
        (fun a c => a ∪ specTokenSet (pyStrip c)) ∅) :=
  foldlM_addChunk_ok _ _ h

theorem parse_valid_spec_union_witness :
    parse_section_spec "1,3-5,7" = .ok ({1, 3, 4, 5, 7} : Finset Int) :=
  (parse_valid_spec_union "1,3-5,7" (by decide)).trans (by decide)

/-- C5: `parse_section_spec` returns a `ParseError` (carrying the
offending stripped token) exactly when some non-empty trimmed token is
neither an integer nor a dash-separated pair of integers, in the sense
the claim itself spells out: a dash-containing token whose first-dash
split has a side that does not parse as an integer (including an empty
side) raises `Invalid section range: <token>`, and a dash-free
non-integer token raises `Invalid section value: <token>`. -/
theorem parse_error_iff (spec : String) :
    ((∃ e, parse_section_spec spec = .error e) ↔
      ∃ c ∈ pySplit ',' spec.toList, specTokenValid (pyStrip c) = false) ∧
    (∀ e, parse_section_spec spec = .error e →
      ∃ c ∈ pySplit ',' spec.toList, specTokenValid (pyStrip c) = false ∧
        pyStrip c ≠ [] ∧ e = tokenError (pyStrip c) ∧
        ParseError.message e =
          (if (pyStrip c).contains '-' then "Invalid section range: "
           else "Invalid section value: ") ++ pyReprStr (String.mk (pyStrip c))) := by
  constructor
  · constructor
    · rintro ⟨e, he⟩
      obtain ⟨c, hc, hv, _, _⟩ := foldlM_addChunk_error _ _ _ he
      exact ⟨c, hc, hv⟩
    · intro h
      exact foldlM_addChunk_error_exists _ _ h
  · intro e he
    obtain ⟨c, hc, hv, hne, het⟩ := foldlM_addChunk_error _ _ _ he
    refine ⟨c, hc, hv, hne, het, ?_⟩
    rw [het]
    by_cases hd : (pyStrip c).contains '-' = true
    · have hmem : '-' ∈ pyStrip c := by simpa using hd
      simp [tokenError, ParseError.message, hd, hmem]
    · have hnm : ¬ '-' ∈ pyStrip c := by simpa using hd
      have hd' : (pyStrip c).contains '-' = false := by simpa using hd
      simp [tokenError, ParseError.message, hd', hnm]

theorem parse_error_iff_witness : ∃ e, parse_section_spec "3-b" = .error e :=
  (parse_error_iff "3-b").1.mpr (by decide)

/-- C3 is refuted by the code: a selector spec consisting of the single
token that is the decimal literal of a negative integer does not yield a
singleton set; `parse_section_spec "-5"` raises
`ParseError ("Invalid section range: '-5'")`, because the leading dash is
taken as a range separator, leaving an empty left-hand side. -/
theorem parse_negative_literal_counterexample :
    parse_section_spec "-5" = .error (.invalidRange "-5") ∧
      parse_section_spec "-5" ≠ .ok ({-5} : Finset Int) := by decide

/-- C3 (amended): any selector spec that is a single trimmed token whose
first character is a dash — in particular the decimal literal of any
negative integer — is treated as a range split at that leading dash; its
left-hand side is empty, so `parse_section_spec` raises
`ParseError ("Invalid section range: <token>")` instead of returning a
singleton set. -/
theorem parse_negative_literal_amended (spec : String) (r : List Char)
    (hone : pySplit ',' spec.toList = [spec.toList])
    (htrim : pyStrip spec.toList = spec.toList)
    (hfirst : pySplitFirst '-' spec.toList = ([], r))
    (hne : spec.toList.isEmpty = false)
    (hdash : spec.toList.contains '-' = true) :
    parse_section_spec spec = .error (.invalidRange spec) := by
  unfold parse_section_spec
  rw [hone, List.foldlM_cons]
  have hchunk : addChunk ∅ spec.toList = .error (.invalidRange spec) := by
    simp only [addChunk, htrim, hne, hdash, hfirst, Bool.false_eq_true, if_false, if_true]
    have h0 : pyInt? ([] : List Char) = none := rfl
    rw [h0]
    rcases hr : pyInt? r with _ | b <;> simp [hr, stringMkToList]
  rw [hchunk, bindError]

theorem parse_negative_literal_amended_witness :
    parse_section_spec "-5" = .error (.invalidRange "-5") :=
  parse_negative_literal_amended "-5" ['5'] (by decide) (by decide) (by decide)
    (by decide) (by decide)

theorem lookup_eq_none_of_not_mem {β : Type} (l : List (String × β)) (k : String)
    (h : ¬ k ∈ l.map Prod.fst) : l.lookup k = none := by
  induction l with
  | nil => rfl
  | cons p t ih =>
    obtain ⟨a, b⟩ := p
    have hk : ¬ (k == a) = true := by
      intro hh
      exact h (by simp [beq_iff_eq.mp hh])
    simp only [List.lookup]
    rw [Bool.not_eq_true] at hk
    rw [hk]
    exact ih (fun hm => h (by simp at hm ⊢; right; exact hm))

theorem lookup_append_of_none {β : Type} (l m : List (String × β)) (k : String)
    (h : l.lookup k = none) : (l ++ m).lookup k = m.lookup k := by
  induction l with
  | nil => rfl
  | cons p t ih =>
    obtain ⟨a, b⟩ := p
    simp only [List.lookup, List.cons_append] at h ⊢
    cases hk : (k == a) with
    | true => rw [hk] at h; cases h
    | false => rw [hk] at h; exact ih h

theorem dictSet_not_mem (d : Doc) (k : String) (v : JValue)
    (h : ¬ k ∈ d.map Prod.fst) : dictSet d k v = d ++ [(k, v)] := by
  unfold dictSet
  have hany : d.any (fun p => p.1 == k) = false := by
    rw [List.any_eq_false]
    intro p hp hbeq
    exact h (by simp only [List.mem_map]; exact ⟨p, hp, beq_iff_eq.mp hbeq⟩)
  rw [hany]
  simp

theorem mem_keys_dictSet (d : Doc) (k : String) (v : JValue) (a : String)
    (h : a ∈ (dictSet d k v).map Prod.fst) : a ∈ d.map Prod.fst ∨ a = k := by
  unfold dictSet at h
  by_cases hc : d.any (fun p => p.1 == k) = true
  · rw [if_pos hc] at h
    rw [List.map_map, List.mem_map] at h
    obtain ⟨p, hp, hpa⟩ := h
    simp only [Function.comp] at hpa
    by_cases hpk : (p.1 == k) = true
    · rw [if_pos hpk] at hpa
      right
      exact hpa.symm
    · rw [if_neg hpk] at hpa
      left
      exact hpa ▸ List.mem_map.mpr ⟨p, hp, rfl⟩
  · rw [if_neg hc, List.map_append, List.mem_append] at h
    rcases h with h1 | h2
    · left; exact h1
    · right; simpa using h2

theorem copyKeys_no_sections (l : List (String × JValue)) :
    ∀ acc : Doc, ¬ "sections" ∈ acc.map Prod.fst →
      ¬ "sections" ∈ ((l.foldl copyKeysStep acc).map Prod.fst) := by
  induction l with
  | nil => intro acc h; exact h
  | cons p t ih =>
    intro acc h
    rw [List.foldl_cons]
    by_cases hk : p.1 = "sections"
    · unfold copyKeysStep
      rw [if_pos hk]
      exact ih acc h
    · unfold copyKeysStep
      rw [if_neg hk]
      apply ih
      intro hm
      rcases mem_keys_dictSet acc p.1 p.2 "sections" hm with h1 | h2
      · exact h h1
      · exact hk h2.symm

theorem build_ok_elim (data : Doc) (seed : Int) (theme : String)
    (filt : Option (Finset Int)) (out : Doc)
    (h : build_output_structure data seed theme filt = .ok out) :
    ∃ xs filtered,
      dictGetD data "sections" (JValue.arr []) = JValue.arr xs ∧
      (filt = none → filtered = xs) ∧
      (∀ S, filt = some S → filterSections S xs = .ok filtered) ∧
      out = (data.foldl copyKeysStep
        [("seed", JValue.int seed), ("theme", JValue.str theme)]) ++
        [("sections", JValue.arr filtered)] := by
  have hacc : ¬ "sections" ∈
      (([("seed", JValue.int seed), ("theme", JValue.str theme)] : Doc).map Prod.fst) := by
    simp
  have hfold := copyKeys_no_sections data _ hacc
  unfold build_output_structure at h
  rcases hv : dictGetD data "sections" (JValue.arr []) with _ | _ | _ | _ | xs | _ <;>
    rw [hv] at h
  case null => exact Except.noConfusion h
  case bool => exact Except.noConfusion h
  case int => exact Except.noConfusion h
  case str => exact Except.noConfusion h
  case obj => exact Except.noConfusion h
  case arr =>
    cases filt with
    | none =>
      have hout : dictSet (data.foldl copyKeysStep
          [("seed", JValue.int seed), ("theme", JValue.str theme)]) "sections"
          (JValue.arr xs) = out := by
        injection h
      refine ⟨xs, xs, rfl, fun _ => rfl, ?_, ?_⟩
      · intro S hS
        exact Option.noConfusion hS
      · rw [← hout]
        exact dictSet_not_mem _ _ _ hfold
    | some S =>
      have h' : (match filterSections S xs with
        | Except.ok filtered => Except.ok (dictSet (data.foldl copyKeysStep
            [("seed", JValue.int seed), ("theme", JValue.str theme)]) "sections"
            (JValue.arr filtered))
        | Except.error e => Except.error e) = Except.ok out := h
      cases hf : filterSections S xs with
      | error e =>
        rw [hf] at h'
        exact Except.noConfusion h'
      | ok filtered =>
        rw [hf] at h'
        have hout : dictSet (data.foldl copyKeysStep
            [("seed", JValue.int seed), ("theme", JValue.str theme)]) "sections"
            (JValue.arr filtered) = out := by
          injection h'
        refine ⟨xs, filtered, rfl, ?_, ?_, ?_⟩
        · intro hn
          exact Option.noConfusion hn
        · intro T hT
          cases hT
          exact hf
        · rw [← hout]
          exact dictSet_not_mem _ _ _ hfold

theorem out_lookup_sections (data : Doc) (seed : Int) (theme : String) (filtered : List JValue) :
    ((data.foldl copyKeysStep
        [("seed", JValue.int seed), ("theme", JValue.str theme)]) ++
      [("sections", JValue.arr filtered)]).lookup "sections" =
      some (JValue.arr filtered) := by
  have hacc : ¬ "sections" ∈
      (([("seed", JValue.int seed), ("theme", JValue.str theme)] : Doc).map Prod.fst) := by
    simp
  rw [lookup_append_of_none _ _ _
    (lookup_eq_none_of_not_mem _ _ (copyKeys_no_sections data _ hacc))]
  rfl

theorem filterSections_cons (S : Finset Int) (v : JValue) (rest : List JValue) :
    filterSections S (v :: rest) =
      (match (match v with
        | JValue.obj kvs => pySetMem (dictGetD kvs "section" JValue.null) S
        | _ => Except.ok false) with
      | .error e => .error e
      | .ok keep =>
        match filterSections S rest with
        | .error e => .error e
        | .ok tail => .ok (if keep then v :: tail else tail)) := rfl

theorem entryMemOk_obj (kvs : List (String × JValue)) :
    entryMemOk (JValue.obj kvs) =
      (match dictGetD kvs "section" JValue.null with
       | JValue.arr _ => false
       | JValue.obj _ => false
       | _ => true) := rfl

theorem keepEntry_obj (S : Finset Int) (kvs : List (String × JValue)) :
    keepEntry S (JValue.obj kvs) =
      (match dictGetD kvs "section" JValue.null with
       | JValue.int n => decide (n ∈ S)
       | JValue.bool b => decide (((if b then 1 else 0) : Int) ∈ S)
       | _ => false) := rfl

theorem pySetMem_ok_of_memOk (v : JValue) (S : Finset Int) (h : entryMemOk v = true) :
    (match v with
      | JValue.obj kvs => pySetMem (dictGetD kvs "section" JValue.null) S
      | _ => Except.ok false) = Except.ok (keepEntry S v) := by
  cases v with
  | obj kvs =>
    rw [entryMemOk_obj] at h
    show pySetMem (dictGetD kvs "section" JValue.null) S =
      Except.ok (keepEntry S (JValue.obj kvs))
    rw [keepEntry_obj]
    cases hval : dictGetD kvs "section" JValue.null <;> rw [hval] at h <;>
      first
        | rfl
        | exact Bool.noConfusion h
  | null => rfl
  | bool b => rfl
  | int n => rfl
  | str s => rfl
  | arr l => rfl

theorem memTest_error (v : JValue) (S : Finset Int) (h : entryMemOk v = false) :
    ∃ ty, (match v with
      | JValue.obj kvs => pySetMem (dictGetD kvs "section" JValue.null) S
      | _ => Except.ok false) = Except.error (.unhashable ty) := by
  cases v with
  | obj kvs =>
    rw [entryMemOk_obj] at h
    show ∃ ty, pySetMem (dictGetD kvs "section" JValue.null) S =
      Except.error (.unhashable ty)
    cases hval : dictGetD kvs "section" JValue.null <;> rw [hval] at h
    case arr => exact ⟨"list", rfl⟩
    case obj => exact ⟨"dict", rfl⟩
    all_goals exact Bool.noConfusion h
  | null => exact Bool.noConfusion h
  | bool b => exact Bool.noConfusion h
  | int n => exact Bool.noConfusion h
  | str s => exact Bool.noConfusion h
  | arr l => exact Bool.noConfusion h

theorem filterSections_ok_of_memOk (S : Finset Int) :
    ∀ xs : List JValue, (∀ v ∈ xs, entryMemOk v = true) →
      filterSections S xs = .ok (xs.filter (keepEntry S)) := by
  intro xs
  induction xs with
  | nil => intro _; rfl
  | cons v rest ih =>
    intro h
    rw [filterSections_cons, pySetMem_ok_of_memOk v S (h v (by simp)),
      ih (fun w hw => h w (by simp [hw])), List.filter_cons]

theorem filterSections_ok_elim (S : Finset Int) :
    ∀ (xs l : List JValue), filterSections S xs = .ok l →
      (∀ v ∈ xs, entryMemOk v = true) ∧ l = xs.filter (keepEntry S) := by
  intro xs
  induction xs with
  | nil =>
    intro l h
    have h' : (Except.ok [] : Except TransformError (List JValue)) = Except.ok l := h
    have hl : ([] : List JValue) = l := by injection h'
    exact ⟨by simp, hl.symm⟩
  | cons v rest ih =>
    intro l h
    by_cases hm : entryMemOk v = true
    · rw [filterSections_cons, pySetMem_ok_of_memOk v S hm] at h
      cases hrec : filterSections S rest with
      | error e =>
        rw [hrec] at h
        have h' : (Except.error e : Except TransformError (List JValue)) = Except.ok l := h
        exact Except.noConfusion h'
      | ok tail =>
        rw [hrec] at h
        have h' : Except.ok (if keepEntry S v then v :: tail else tail) = Except.ok l := h
        have hl : (if keepEntry S v then v :: tail else tail) = l := by injection h'
        obtain ⟨hall, htail⟩ := ih tail hrec
        constructor
        · intro w hw
          rcases List.mem_cons.mp hw with h1 | h2
          · rw [h1]; exact hm
          · exact hall w h2
        · rw [← hl, htail, List.filter_cons]
    · have hm' : entryMemOk v = false := by simpa using hm
      obtain ⟨ty, hty⟩ := memTest_error v S hm'
      rw [filterSections_cons, hty] at h
      have h' : (Except.error (TransformError.unhashable ty) :
        Except TransformError (List JValue)) = Except.ok l := h
      exact Except.noConfusion h'

theorem filterSections_error_unhashable (S : Finset Int) :
    ∀ (xs : List JValue) (e : TransformError), filterSections S xs = .error e →
      ∃ ty, e = .unhashable ty := by
  intro xs
  induction xs with
  | nil =>
    intro e h
    exact Except.noConfusion h
  | cons v rest ih =>
    intro e h
    by_cases hm : entryMemOk v = true
    · rw [filterSections_cons, pySetMem_ok_of_memOk v S hm] at h
      cases hrec : filterSections S rest with
      | error e2 =>
        rw [hrec] at h
        have h' : (Except.error e2 : Except TransformError (List JValue)) = Except.error e := h
        have he : e2 = e := by injection h'
        exact he ▸ ih e2 hrec
      | ok tail =>
        rw [hrec] at h
        have h' : Except.ok (if keepEntry S v then v :: tail else tail) = Except.error e := h
        exact Except.noConfusion h'
    · have hm' : entryMemOk v = false := by simpa using hm
      obtain ⟨ty, hty⟩ := memTest_error v S hm'
      rw [filterSections_cons, hty] at h
      have h' : (Except.error (TransformError.unhashable ty) :
        Except TransformError (List JValue)) = Except.error e := h
      have he : TransformError.unhashable ty = e := by injection h'
      exact ⟨ty, he.symm⟩

theorem build_eval (data : Doc) (seed : Int) (theme : String)
    (filt : Option (Finset Int)) (xs l : List JValue)
    (hs : dictGetD data "sections" (JValue.arr []) = JValue.arr xs)
    (hl : (match filt with
      | none => Except.ok xs
      | some S => filterSections S xs) = Except.ok l) :
    build_output_structure data seed theme filt =
      .ok ((data.foldl copyKeysStep
        [("seed", JValue.int seed), ("theme", JValue.str theme)]) ++
        [("sections", JValue.arr l)]) := by
  have hacc : ¬ "sections" ∈
      (([("seed", JValue.int seed), ("theme", JValue.str theme)] : Doc).map Prod.fst) := by
    simp
  have hfold := copyKeys_no_sections data _ hacc
  unfold build_output_structure
  rw [hs]
  cases filt with
  | none =>
    have hl' : Except.ok xs = Except.ok l := hl
    have hxl : xs = l := by injection hl'
    show Except.ok (dictSet (data.foldl copyKeysStep
      [("seed", JValue.int seed), ("theme", JValue.str theme)]) "sections"
      (JValue.arr xs)) = _
    rw [hxl, dictSet_not_mem _ _ _ hfold]
  | some S =>
    have hl' : filterSections S xs = Except.ok l := hl
    show (match filterSections S xs with
      | Except.ok filtered => Except.ok (dictSet (data.foldl copyKeysStep
          [("seed", JValue.int seed), ("theme", JValue.str theme)]) "sections"
          (JValue.arr filtered))
      | Except.error e => Except.error e) = _
    rw [hl']
    show Except.ok (dictSet (data.foldl copyKeysStep
      [("seed", JValue.int seed), ("theme", JValue.str theme)]) "sections"
      (JValue.arr l)) = _
    rw [dictSet_not_mem _ _ _ hfold]

/-- C7: when no filter is requested (selector argument null), the output
"sections" value is the input sections array unchanged: the same entries
in the same order, including any non-mapping entries. -/
theorem transform_no_filter_preserves_sections (data : Doc) (seed : Int) (theme : String)
    (xs : List JValue) (hs : data.lookup "sections" = some (JValue.arr xs)) :
    ∃ out, build_output_structure data seed theme none = .ok out ∧
      out.lookup "sections" = some (JValue.arr xs) := by
  have hget : dictGetD data "sections" (JValue.arr []) = JValue.arr xs := by
    unfold dictGetD
    rw [hs]
    rfl
  exact ⟨_, build_eval data seed theme none xs xs hget rfl,
    out_lookup_sections data seed theme xs⟩

theorem transform_no_filter_preserves_sections_witness :
    ∃ out, build_output_structure
        [("sections", JValue.arr [JValue.str "plain", JValue.obj [("section", JValue.int 3)]])]
        7 "t" none = .ok out ∧
      out.lookup "sections" =
        some (JValue.arr [JValue.str "plain", JValue.obj [("section", JValue.int 3)]]) :=
  transform_no_filter_preserves_sections
    [("sections", JValue.arr [JValue.str "plain", JValue.obj [("section", JValue.int 3)]])]
    7 "t" [JValue.str "plain", JValue.obj [("section", JValue.int 3)]] rfl

theorem build_absent_sections (data : Doc) (seed : Int) (theme : String)
    (filt : Option (Finset Int)) (habs : data.lookup "sections" = none) :
    ∃ out, build_output_structure data seed theme filt = .ok out ∧
      out.lookup "sections" = some (JValue.arr []) := by
  have hget : dictGetD data "sections" (JValue.arr []) = JValue.arr [] := by
    unfold dictGetD
    rw [habs]
    rfl
  have hl : (match filt with
      | none => Except.ok ([] : List JValue)
      | some S => filterSections S []) = Except.ok ([] : List JValue) := by
    cases filt <;> rfl
  exact ⟨_, build_eval data seed theme filt [] [] hget hl,
    out_lookup_sections data seed theme []⟩

/-- C10: when the input document has no "sections" key at all, the
transform succeeds (no ShapeError) and the output "sections" value is the
empty array, whether or not a selector set is supplied. -/
theorem transform_absent_sections_empty (data : Doc) (seed : Int) (theme : String)
    (filt : Option (Finset Int)) (habs : data.lookup "sections" = none) :
    ∃ out, build_output_structure data seed theme filt = .ok out ∧
      out.lookup "sections" = some (JValue.arr []) :=
  build_absent_sections data seed theme filt habs

theorem transform_absent_sections_empty_witness :
    (∃ out, build_output_structure [("title", JValue.str "T")] 1 "x" none = .ok out ∧
      out.lookup "sections" = some (JValue.arr [])) ∧
    (∃ out, build_output_structure [("title", JValue.str "T")] 1 "x" (some {4}) = .ok out ∧
      out.lookup "sections" = some (JValue.arr [])) :=
  ⟨transform_absent_sections_empty [("title", JValue.str "T")] 1 "x" none rfl,
   transform_absent_sections_empty [("title", JValue.str "T")] 1 "x" (some {4}) rfl⟩

/-- C6: the transform fails with the ShapeError
(`TypeError("Input JSON 'sections' field must be a list.")`) exactly when
the input document has a "sections" key whose value is not a list; since
the result is an `Except`, no output document is produced on that error. -/
theorem transform_shape_error_iff (data : Doc) (seed : Int) (theme : String)
    (filt : Option (Finset Int)) :
    (∃ msg, build_output_structure data seed theme filt = .error (.shape msg)) ↔
      (∃ v, data.lookup "sections" = some v ∧ v.isList = false) := by
  constructor
  · rintro ⟨msg, hmsg⟩
    cases hv : data.lookup "sections" with
    | none =>
      exfalso
      obtain ⟨out, hout, _⟩ :=
        build_absent_sections data seed theme filt hv
      rw [hout] at hmsg
      exact Except.noConfusion hmsg
    | some v =>
      cases v with
      | arr xs =>
        exfalso
        have hget : dictGetD data "sections" (JValue.arr []) = JValue.arr xs := by
          unfold dictGetD
          rw [hv]
          rfl
        unfold build_output_structure at hmsg
        rw [hget] at hmsg
        cases filt with
        | none => exact Except.noConfusion hmsg
        | some S =>
          have hmsg' : (match filterSections S xs with
            | Except.ok filtered => Except.ok (dictSet (data.foldl copyKeysStep
                [("seed", JValue.int seed), ("theme", JValue.str theme)]) "sections"
                (JValue.arr filtered))
            | Except.error e => Except.error e) =
              Except.error (TransformError.shape msg) := hmsg
          cases hf : filterSections S xs with
          | ok filtered =>
            rw [hf] at hmsg'
            exact Except.noConfusion hmsg'
          | error e =>
            rw [hf] at hmsg'
            have he : e = TransformError.shape msg := by injection hmsg'
            obtain ⟨ty, hty⟩ := filterSections_error_unhashable S xs e hf
            rw [hty] at he
            exact TransformError.noConfusion he
      | null => exact ⟨JValue.null, rfl, rfl⟩
      | bool b => exact ⟨JValue.bool b, rfl, rfl⟩
      | int n => exact ⟨JValue.int n, rfl, rfl⟩
      | str s => exact ⟨JValue.str s, rfl, rfl⟩
      | obj kvs => exact ⟨JValue.obj kvs, rfl, rfl⟩
  · rintro ⟨v, hv, hnl⟩
    have hget : dictGetD data "sections" (JValue.arr []) = v := by
      unfold dictGetD
      rw [hv]
      rfl
    refine ⟨"Input JSON \x27sections\x27 field must be a list.", ?_⟩
    unfold build_output_structure
    rw [hget]
    cases v with
    | arr xs => exact Bool.noConfusion hnl
    | null => rfl
    | bool b => rfl
    | int n => rfl
    | str s => rfl
    | obj kvs => rfl

/-- C1 is refuted by the code on documents containing a mapping entry
whose "section" value is an unhashable container: the claim says such an
entry (its "section" value, a list, is not a member of the selector set)
is dropped without raising an error, but the membership test
`s.get("section") in section_filter` first hashes the value, and Python
raises `TypeError: unhashable type: 'list'`; the transform therefore
raises instead of returning a filtered document. -/
theorem transform_filter_counterexample :
    build_output_structure
        [("sections", JValue.arr [JValue.obj [("section", JValue.arr [])]])]
        0 "" (some {2}) = .error (.unhashable "list") := rfl

/-- C1 (amended): for every document whose "sections" value is a list and
every selector set, provided no mapping entry has an unhashable container
(list or mapping) as its "section" value, the output "sections" array is
exactly the input entries, in original relative order, that are
mapping-typed and whose "section" value is a member of the selector set
(Python membership: ints directly, True/False as 1/0); non-mapping
entries and mapping entries without a matching "section" value are
dropped without an error, and membership in the set, not truthiness,
decides inclusion.  An entry whose "section" value is a list or mapping
instead aborts the transform with a `TypeError`. -/
theorem transform_filters_sections (data : Doc) (seed : Int) (theme : String)
    (S : Finset Int) (xs : List JValue)
    (hs : data.lookup "sections" = some (JValue.arr xs))
    (hok : ∀ v ∈ xs, entryMemOk v = true) :
    ∃ out, build_output_structure data seed theme (some S) = .ok out ∧
      out.lookup "sections" = some (JValue.arr (xs.filter (keepEntry S))) := by
  have hget : dictGetD data "sections" (JValue.arr []) = JValue.arr xs := by
    unfold dictGetD
    rw [hs]
    rfl
  have hl : (match (some S : Option (Finset Int)) with
      | none => Except.ok xs
      | some T => filterSections T xs) = Except.ok (xs.filter (keepEntry S)) :=
    filterSections_ok_of_memOk S xs hok
  exact ⟨_, build_eval data seed theme (some S) xs (xs.filter (keepEntry S)) hget hl,
    out_lookup_sections data seed theme (xs.filter (keepEntry S))⟩

theorem transform_filters_sections_witness :
    ∃ out, build_output_structure
        [("sections", JValue.arr
          [JValue.obj [("section", JValue.int 1), ("x", JValue.str "a")],
           JValue.obj [("section", JValue.int 2), ("x", JValue.str "b")],
           JValue.obj [("y", JValue.str "z")]])] 0 "" (some {2}) = .ok out ∧
      out.lookup "sections" =
        some (JValue.arr [JValue.obj [("section", JValue.int 2), ("x", JValue.str "b")]]) :=
  transform_filters_sections
    [("sections", JValue.arr
      [JValue.obj [("section", JValue.int 1), ("x", JValue.str "a")],
       JValue.obj [("section", JValue.int 2), ("x", JValue.str "b")],
       JValue.obj [("y", JValue.str "z")]])] 0 "" {2}
    [JValue.obj [("section", JValue.int 1), ("x", JValue.str "a")],
     JValue.obj [("section", JValue.int 2), ("x", JValue.str "b")],
     JValue.obj [("y", JValue.str "z")]] rfl (by decide)

/-- C8: filtering is idempotent: whenever the transform succeeds, removing
the added "seed" and "theme" keys from its output to re-form a valid
input and transforming again with the same selector argument succeeds and
yields the same "sections" content. -/
theorem transform_idempotent (data : Doc) (seed : Int) (theme : String)
    (filt : Option (Finset Int)) (out : Doc)
    (h : build_output_structure data seed theme filt = .ok out) :
    ∃ out2, build_output_structure (removeSeedTheme out) seed theme filt = .ok out2 ∧
      out2.lookup "sections" = out.lookup "sections" := by
  obtain ⟨xs, filtered, hget, hnone, hsome, hout⟩ := build_ok_elim data seed theme filt out h
  have hlookout : out.lookup "sections" = some (JValue.arr filtered) := by
    rw [hout]
    exact out_lookup_sections data seed theme filtered
  have hacc : ¬ "sections" ∈
      (([("seed", JValue.int seed), ("theme", JValue.str theme)] : Doc).map Prod.fst) := by
    simp
  have hfold := copyKeys_no_sections data _ hacc
  have hrem : removeSeedTheme out =
      removeSeedTheme (data.foldl copyKeysStep
        [("seed", JValue.int seed), ("theme", JValue.str theme)]) ++
      [("sections", JValue.arr filtered)] := by
    rw [hout]
    unfold removeSeedTheme
    rw [List.filter_append]
    rfl
  have hremkeys : ¬ "sections" ∈ ((removeSeedTheme (data.foldl copyKeysStep
      [("seed", JValue.int seed), ("theme", JValue.str theme)])).map Prod.fst) := by
    intro hm
    apply hfold
    rw [List.mem_map] at hm
    obtain ⟨p, hp, hpk⟩ := hm
    exact List.mem_map.mpr ⟨p, List.mem_of_mem_filter hp, hpk⟩
  have hlook2 : (removeSeedTheme out).lookup "sections" = some (JValue.arr filtered) := by
    rw [hrem, lookup_append_of_none _ _ _ (lookup_eq_none_of_not_mem _ _ hremkeys)]
    rfl
  have hget2 : dictGetD (removeSeedTheme out) "sections" (JValue.arr []) =
      JValue.arr filtered := by
    unfold dictGetD
    rw [hlook2]
    rfl
  have hl2 : (match filt with
      | none => Except.ok filtered
      | some S => filterSections S filtered) = Except.ok filtered := by
    cases filt with
    | none => rfl
    | some S =>
      have hf : filterSections S xs = Except.ok filtered := hsome S rfl
      obtain ⟨hall, hfil⟩ := filterSections_ok_elim S xs filtered hf
      have hall2 : ∀ v ∈ filtered, entryMemOk v = true := by
        intro v hv
        rw [hfil] at hv
        exact hall v (List.mem_of_mem_filter hv)
      have hkeep : ∀ v ∈ filtered, keepEntry S v = true := by
        intro v hv
        rw [hfil] at hv
        exact (List.mem_filter.mp hv).2
      show filterSections S filtered = Except.ok filtered
      rw [filterSections_ok_of_memOk S filtered hall2, List.filter_eq_self.mpr hkeep]
  refine ⟨_, build_eval (removeSeedTheme out) seed theme filt filtered filtered hget2 hl2, ?_⟩
  rw [hlookout]
  exact out_lookup_sections (removeSeedTheme out) seed theme filtered

theorem transform_idempotent_witness :
    ∃ out2, build_output_structure
        (removeSeedTheme [("seed", JValue.int 0), ("theme", JValue.str ""),
          ("sections", JValue.arr [JValue.obj [("section", JValue.int 1)]])])
        0 "" (some ({1} : Finset Int)) = .ok out2 ∧
      out2.lookup "sections" =
        ([("seed", JValue.int 0), ("theme", JValue.str ""),
          ("sections", JValue.arr [JValue.obj [("section", JValue.int 1)]])] : Doc).lookup
          "sections" :=
  transform_idempotent [("sections", JValue.arr [JValue.obj [("section", JValue.int 1)]])]
    0 "" (some {1})
    [("seed", JValue.int 0), ("theme", JValue.str ""),
      ("sections", JValue.arr [JValue.obj [("section", JValue.int 1)]])] rfl

theorem lookup_cons_ne {β : Type} (k a : String) (v : β) (t : List (String × β))
    (h : a ≠ k) : ((k, v) :: t).lookup a = t.lookup a := by
  simp only [List.lookup]
  rw [show (a == k) = false from by simpa using h]

theorem lookup_cons_eq {β : Type} (k : String) (v : β) (t : List (String × β)) :
    ((k, v) :: t).lookup k = some v := by
  simp [List.lookup]

theorem dictSet_cons_eq (k0 : String) (x : JValue) (d : Doc) (v : JValue)
    (h : ¬ k0 ∈ d.map Prod.fst) : dictSet ((k0, x) :: d) k0 v = (k0, v) :: d := by
  unfold dictSet
  have hany : ((k0, x) :: d).any (fun p => p.1 == k0) = true := by simp
  rw [if_pos hany, List.map_cons]
  have hhead : (if ((k0, x) : String × JValue).1 == k0 then (k0, v)
      else ((k0, x) : String × JValue)) = (k0, v) := by simp
  rw [hhead]
  congr 1
  have hid : ∀ p ∈ d, (if p.1 == k0 then (k0, v) else p) = p := by
    intro p hp
    rw [if_neg]
    intro hbeq
    exact h (List.mem_map.mpr ⟨p, hp, beq_iff_eq.mp hbeq⟩)
  calc d.map (fun p => if p.1 == k0 then (k0, v) else p) = d.map id :=
        List.map_congr_left hid
    _ = d := List.map_id d

theorem dictSet_cons_ne (k0 : String) (x : JValue) (d : Doc) (k : String) (v : JValue)
    (hne : k0 ≠ k) (hmem : k ∈ d.map Prod.fst) :
    dictSet ((k0, x) :: d) k v = (k0, x) :: dictSet d k v := by
  obtain ⟨p, hp, hpk⟩ := List.mem_map.mp hmem
  have hanyd : d.any (fun q => q.1 == k) = true :=
    List.any_eq_true.mpr ⟨p, hp, by simpa using hpk⟩
  unfold dictSet
  have hany : ((k0, x) :: d).any (fun q => q.1 == k) = true := by
    simp only [List.any_cons, hanyd, Bool.or_true]
  rw [if_pos hany, if_pos hanyd, List.map_cons]
  have hhead : (if ((k0, x) : String × JValue).1 == k then (k, v)
      else ((k0, x) : String × JValue)) = (k0, x) := by simp [hne]
  rw [hhead]

theorem copyKeys_characterize (l : List (String × JValue)) :
    ∀ (x y : JValue) (rest : Doc),
      (l.map Prod.fst).Nodup →
      (∀ k ∈ l.map Prod.fst, ¬ k ∈ rest.map Prod.fst) →
      ¬ "seed" ∈ rest.map Prod.fst →
      ¬ "theme" ∈ rest.map Prod.fst →
      l.foldl copyKeysStep (("seed", x) :: ("theme", y) :: rest) =
        ("seed", (l.lookup "seed").getD x) :: ("theme", (l.lookup "theme").getD y) ::
          (rest ++ l.filter (fun kv =>
            kv.1 != "sections" && kv.1 != "seed" && kv.1 != "theme")) := by
  induction l with
  | nil =>
    intro x y rest _ _ _ _
    simp [List.lookup]
  | cons p t ih =>
    obtain ⟨k, v⟩ := p
    intro x y rest hnd hdis hs ht
    rw [List.map_cons, List.nodup_cons] at hnd
    obtain ⟨hknot, hnd'⟩ := hnd
    have hdis' : ∀ k2 ∈ t.map Prod.fst, ¬ k2 ∈ rest.map Prod.fst := by
      intro k2 hk2
      exact hdis k2 (by simp [hk2])
    have hkl : k ∈ ((k, v) :: t).map Prod.fst := by simp
    rw [List.foldl_cons]
    by_cases hk1 : k = "sections"
    · subst hk1
      have hstep : copyKeysStep (("seed", x) :: ("theme", y) :: rest) ("sections", v) =
          ("seed", x) :: ("theme", y) :: rest := by
        unfold copyKeysStep
        exact if_pos rfl
      rw [hstep, ih x y rest hnd' hdis' hs ht,
        lookup_cons_ne "sections" "seed" v t (by decide),
        lookup_cons_ne "sections" "theme" v t (by decide), List.filter_cons]
      have hp : ((("sections", v) : String × JValue).1 != "sections" &&
          (("sections", v) : String × JValue).1 != "seed" &&
          (("sections", v) : String × JValue).1 != "theme") = false := rfl
      rw [hp]
      simp
    · by_cases hk2 : k = "seed"
      · subst hk2
        have hstep : copyKeysStep (("seed", x) :: ("theme", y) :: rest) ("seed", v) =
            ("seed", v) :: ("theme", y) :: rest := by
          unfold copyKeysStep
          rw [if_neg hk1]
          apply dictSet_cons_eq
          rw [List.map_cons]
          intro hm
          rcases List.mem_cons.mp hm with h1 | h2
          · have h1' : ("seed" : String) = "theme" := h1
            exact absurd h1' (by decide)
          · exact hs h2
        rw [hstep, ih v y rest hnd' hdis' hs ht,
          lookup_eq_none_of_not_mem t "seed" hknot, lookup_cons_eq,
          lookup_cons_ne "seed" "theme" v t (by decide), List.filter_cons]
        have hp : ((("seed", v) : String × JValue).1 != "sections" &&
            (("seed", v) : String × JValue).1 != "seed" &&
            (("seed", v) : String × JValue).1 != "theme") = false := rfl
        rw [hp]
        simp
      · by_cases hk3 : k = "theme"
        · subst hk3
          have hstep : copyKeysStep (("seed", x) :: ("theme", y) :: rest) ("theme", v) =
              ("seed", x) :: ("theme", v) :: rest := by
            unfold copyKeysStep
            rw [if_neg hk1]
            have hne0 : ("seed" : String) ≠ "theme" := by decide
            have hmem0 : ("theme" : String) ∈ ((("theme", y) :: rest).map Prod.fst) := by
              simp
            rw [dictSet_cons_ne "seed" x (("theme", y) :: rest) "theme" v hne0 hmem0]
            congr 1
            apply dictSet_cons_eq
            exact ht
          rw [hstep, ih x v rest hnd' hdis' hs ht,
            lookup_eq_none_of_not_mem t "theme" hknot, lookup_cons_eq,
            lookup_cons_ne "theme" "seed" v t (by decide), List.filter_cons]
          have hp : ((("theme", v) : String × JValue).1 != "sections" &&
              (("theme", v) : String × JValue).1 != "seed" &&
              (("theme", v) : String × JValue).1 != "theme") = false := rfl
          rw [hp]
          simp
        · have hstep : copyKeysStep (("seed", x) :: ("theme", y) :: rest) (k, v) =
              ("seed", x) :: ("theme", y) :: (rest ++ [(k, v)]) := by
            unfold copyKeysStep
            rw [if_neg hk1]
            rw [dictSet_not_mem]
            · rfl
            · rw [List.map_cons, List.map_cons]
              intro hm
              rcases List.mem_cons.mp hm with h1 | hm2
              · exact hk2 h1
              · rcases List.mem_cons.mp hm2 with h2 | h3
                · exact hk3 h2
                · exact hdis k hkl h3
          have hdis2 : ∀ k2 ∈ t.map Prod.fst, ¬ k2 ∈ ((rest ++ [(k, v)]).map Prod.fst) := by
            intro k2 hk2t hm
            rw [List.map_append, List.mem_append] at hm
            rcases hm with h1 | h2
            · exact hdis k2 (by simp [hk2t]) h1
            · have : k2 = k := by simpa using h2
              exact hknot (this ▸ hk2t)
          have hs2 : ¬ "seed" ∈ ((rest ++ [(k, v)]).map Prod.fst) := by
            intro hm
            rw [List.map_append, List.mem_append] at hm
            rcases hm with h1 | h2
            · exact hs h1
            · have hkk : ("seed" : String) = k := by simpa using h2
              exact hk2 hkk.symm
          have ht2 : ¬ "theme" ∈ ((rest ++ [(k, v)]).map Prod.fst) := by
            intro hm
            rw [List.map_append, List.mem_append] at hm
            rcases hm with h1 | h2
            · exact ht h1
            · have hkk : ("theme" : String) = k := by simpa using h2
              exact hk3 hkk.symm
          rw [hstep, ih x y (rest ++ [(k, v)]) hnd' hdis2 hs2 ht2,
            lookup_cons_ne k "seed" v t (fun hh => hk2 hh.symm),
            lookup_cons_ne k "theme" v t (fun hh => hk3 hh.symm), List.filter_cons]
          have hp : (((k, v) : String × JValue).1 != "sections" &&
              ((k, v) : String × JValue).1 != "seed" &&
              ((k, v) : String × JValue).1 != "theme") = true := by
            simp [hk1, hk2, hk3]
          rw [hp]
          simp

theorem not_mem_keys_of_lookup_none {β : Type} (l : List (String × β)) (k : String)
    (h : l.lookup k = none) : ¬ k ∈ l.map Prod.fst := by
  induction l with
  | nil => simp
  | cons p t ih =>
    obtain ⟨a, b⟩ := p
    intro hm
    by_cases hk : k = a
    · subst hk
      rw [lookup_cons_eq] at h
      exact Option.noConfusion h
    · rw [lookup_cons_ne a k b t hk] at h
      rcases List.mem_cons.mp hm with h1 | h2
      · exact hk h1
      · exact ih h h2

/-- C9: when the input document itself contains a "seed" (respectively
"theme") key, the copying loop overwrites the freshly inserted metadata in
place: the output value under "seed" (respectively "theme") is the input
document value rather than the caller-supplied one, while the key still
occupies the first (respectively second) position of the output. -/
theorem transform_input_metadata_overrides (data : Doc) (seed : Int) (theme : String)
    (filt : Option (Finset Int)) (out : Doc) (v w : JValue)
    (hnd : (data.map Prod.fst).Nodup)
    (h : build_output_structure data seed theme filt = .ok out) :
    (data.lookup "seed" = some v → out[0]? = some ("seed", v)) ∧
    (data.lookup "theme" = some w → out[1]? = some ("theme", w)) := by
  obtain ⟨xs, filtered, hget, hnone, hsome, hout⟩ := build_ok_elim data seed theme filt out h
  have hchar := copyKeys_characterize data (JValue.int seed) (JValue.str theme) []
    hnd (by simp) (by simp) (by simp)
  rw [hchar] at hout
  constructor
  · intro hv
    rw [hout, hv]
    simp
  · intro hw
    rw [hout, hw]
    simp

theorem transform_input_metadata_overrides_witness :
    (([("seed", JValue.int 7), ("theme", JValue.str "inner")] : Doc).lookup "seed" =
        some (JValue.int 7) →
      ([("seed", JValue.int 7), ("theme", JValue.str "inner"),
        ("sections", JValue.arr [])] : Doc)[0]? = some ("seed", JValue.int 7)) ∧
    (([("seed", JValue.int 7), ("theme", JValue.str "inner")] : Doc).lookup "theme" =
        some (JValue.str "inner") →
      ([("seed", JValue.int 7), ("theme", JValue.str "inner"),
        ("sections", JValue.arr [])] : Doc)[1]? = some ("theme", JValue.str "inner")) :=
  transform_input_metadata_overrides
    [("seed", JValue.int 7), ("theme", JValue.str "inner")] 42 "Hi" none
    [("seed", JValue.int 7), ("theme", JValue.str "inner"), ("sections", JValue.arr [])]
    (JValue.int 7) (JValue.str "inner") (by decide) rfl

/-- C4 is refuted by the code on documents that themselves contain a
"seed" (or "theme") key: the copying loop overwrites the freshly inserted
metadata, so the output "seed" value is the input document value `"X"`,
not the supplied seed integer `42`. -/
theorem transform_key_order_counterexample :
    build_output_structure [("seed", JValue.str "X")] 42 "Hi" none =
      .ok [("seed", JValue.str "X"), ("theme", JValue.str "Hi"),
        ("sections", JValue.arr [])] ∧
    JValue.str "X" ≠ JValue.int 42 :=
  ⟨rfl, fun hh => JValue.noConfusion hh⟩

/-- C4 (amended): provided the input document does not itself contain a
"seed" or "theme" key (Python dict keys are unique, which the `Nodup`
hypothesis encodes), whenever the transform succeeds its output is
exactly: "seed" with the supplied seed first, "theme" with the supplied
theme text second, then every input key except "sections" with its
original value in original relative order, and "sections" last. -/
theorem transform_key_order (data : Doc) (seed : Int) (theme : String)
    (filt : Option (Finset Int)) (out : Doc)
    (hnd : (data.map Prod.fst).Nodup)
    (hseed : data.lookup "seed" = none)
    (htheme : data.lookup "theme" = none)
    (h : build_output_structure data seed theme filt = .ok out) :
    ∃ sv, out = ("seed", JValue.int seed) :: ("theme", JValue.str theme) ::
      (data.filter (fun kv => kv.1 != "sections") ++ [("sections", sv)]) := by
  obtain ⟨xs, filtered, hget, hnone, hsome, hout⟩ := build_ok_elim data seed theme filt out h
  have hchar := copyKeys_characterize data (JValue.int seed) (JValue.str theme) []
    hnd (by simp) (by simp) (by simp)
  rw [hchar, hseed, htheme] at hout
  have hfil : data.filter (fun kv =>
      kv.1 != "sections" && kv.1 != "seed" && kv.1 != "theme") =
      data.filter (fun kv => kv.1 != "sections") := by
    apply List.filter_congr
    intro kv hkv
    have h1 : kv.1 ≠ "seed" := by
      intro hh
      exact not_mem_keys_of_lookup_none data "seed" hseed
        (List.mem_map.mpr ⟨kv, hkv, hh⟩)
    have h2 : kv.1 ≠ "theme" := by
      intro hh
      exact not_mem_keys_of_lookup_none data "theme" htheme
        (List.mem_map.mpr ⟨kv, hkv, hh⟩)
    have hb1 : (kv.1 != "seed") = true := bne_iff_ne.mpr h1
    have hb2 : (kv.1 != "theme") = true := bne_iff_ne.mpr h2
    rw [hb1, hb2, Bool.and_true, Bool.and_true]
  rw [hfil] at hout
  refine ⟨JValue.arr filtered, ?_⟩
  rw [hout]
  simp

theorem transform_key_order_witness :
    ∃ sv, ([("seed", JValue.int 42), ("theme", JValue.str "Hi"),
        ("title", JValue.str "T"), ("sections", JValue.arr [])] : Doc) =
      ("seed", JValue.int 42) :: ("theme", JValue.str "Hi") ::
        (([("title", JValue.str "T"), ("sections", JValue.arr [])] : Doc).filter
          (fun kv => kv.1 != "sections") ++ [("sections", sv)]) :=
  transform_key_order [("title", JValue.str "T"), ("sections", JValue.arr [])] 42 "Hi" none
    [("seed", JValue.int 42), ("theme", JValue.str "Hi"), ("title", JValue.str "T"),
      ("sections", JValue.arr [])] (by decide) rfl rfl rfl
